import Mathlib

/-!
Verification of the auto-scanning trainer (`training_data/training.py`).

The embedding models file contents as byte lists (`List Nat`, each entry a
byte value), decoded text as `String`, and the outcome of fallible reads
(`open(...)`, `json.load`) as `Option` fields of a `FileEntry`.  The MD5
digest used by `hash_file` is implemented directly (RFC 1321) over byte
lists; the digest is represented as the natural number obtained from the
little-endian concatenation of the four state words, an injective encoding
of the hex digest string the Python code stores.

Character-level helpers model the ASCII behaviour of Python's `str.lower`,
`str.strip`, and the regexes `\b[a-zA-Z]\x7b3,\x7d\b`, `[.!?]+`,
`def (\w+)`, `class (\w+)` used by the code.  The training data in the
claims is ASCII, where these coincide with Python's Unicode semantics.
-/

namespace AutoScan

/-- ASCII lowering of one character, as `str.lower` acts on ASCII. -/
def lowChar (c : Char) : Char :=
  if 65 ≤ c.toNat ∧ c.toNat ≤ 90 then Char.ofNat (c.toNat + 32) else c

/-- Lowering of a whole string (`text.lower()` on ASCII text). -/
def lowerStr (s : String) : String :=
  (s.data.map lowChar).asString

/-- Whitespace recognised by `str.strip`. -/
def isSpaceChar (c : Char) : Bool :=
  decide (c = ' ' ∨ c = '\t' ∨ c = '\n' ∨ c = '\r' ∨ c.toNat = 11 ∨ c.toNat = 12)

/-- `str.strip()`: remove leading and trailing whitespace. -/
def stripStr (s : String) : String :=
  (((s.data.dropWhile isSpaceChar).reverse.dropWhile isSpaceChar).reverse).asString

/-- An ASCII letter (the regex class `[a-zA-Z]`). -/
def isAlphaChar (c : Char) : Bool :=
  decide ((97 ≤ c.toNat ∧ c.toNat ≤ 122) ∨ (65 ≤ c.toNat ∧ c.toNat ≤ 90))

/-- A word character for the regex `\w` (ASCII letters, digits, underscore). -/
def isWordChar (c : Char) : Bool :=
  isAlphaChar c || decide (48 ≤ c.toNat ∧ c.toNat ≤ 57) || decide (c = '_')

/-- Splits a character list into its maximal runs of word characters.
The accumulator holds the current run reversed. -/
def wordRunsAux : List Char → List Char → List (List Char)
  | [], cur => if cur.isEmpty then [] else [cur.reverse]
  | c :: rest, cur =>
    if isWordChar c then wordRunsAux rest (c :: cur)
    else if cur.isEmpty then wordRunsAux rest []
    else cur.reverse :: wordRunsAux rest []

def wordRuns (l : List Char) : List (List Char) := wordRunsAux l []

/-- `re.findall(r'\b[a-zA-Z]\x7b3,\x7d\b', text.lower())`: the maximal
word-character runs of the lowered text that consist only of letters and
have length at least 3.  (A letter run bordered by a digit or underscore
has no `\b` boundary there, so only all-letter maximal runs match.) -/
def tokenize (text : String) : List String :=
  ((wordRuns (lowerStr text).data).filter
      (fun r => decide (3 ≤ r.length) && r.all isAlphaChar)).map List.asString

/-- A sentence terminator of the regex class `[.!?]`. -/
def isSentDelim (c : Char) : Bool := decide (c = '.' ∨ c = '!' ∨ c = '?')

/-- `re.split(r'[.!?]+', text)`.  The second argument is `some cur` while a
piece (reversed) is being accumulated and `none` while a delimiter run is
being skipped. -/
def sentSplitAux : List Char → Option (List Char) → List (List Char)
  | [], some cur => [cur.reverse]
  | [], none => [[]]
  | c :: rest, some cur =>
    if isSentDelim c then cur.reverse :: sentSplitAux rest none
    else sentSplitAux rest (some (c :: cur))
  | c :: rest, none =>
    if isSentDelim c then sentSplitAux rest none
    else sentSplitAux rest (some [c])

def sentences (text : String) : List String :=
  (sentSplitAux text.data (some [])).map List.asString

/-- Whether `kw` is a leading segment of `l` (literal match). -/
def startsWithL : List Char → List Char → Bool
  | [], _ => true
  | _ :: _, [] => false
  | a :: as, b :: bs => a == b && startsWithL as bs

/-- Python's substring test `kw in s` on character lists. -/
def containsL (needle : List Char) : List Char → Bool
  | [] => needle.isEmpty
  | c :: t => startsWithL needle (c :: t) || containsL needle t

/-- One scanning pass of `re.findall(kw ++ r'(\w+)', text)` for a literal
keyword `kw` followed by a captured word.  `fuel` bounds the recursion; each
step consumes at least one character, so `fuel = l.length` (see `findIds`)
never runs out.  On a failed capture the scan resumes one character later;
on a successful capture it resumes after the captured word, as `findall`
does for non-overlapping matches. -/
def findIdsFuel (kw : List Char) : Nat → List Char → List String
  | 0, _ => []
  | _ + 1, [] => []
  | fuel + 1, c :: rest =>
    if startsWithL kw (c :: rest) then
      let after := (c :: rest).drop kw.length
      let cap := after.takeWhile isWordChar
      if cap.isEmpty then findIdsFuel kw fuel rest
      else cap.asString :: findIdsFuel kw fuel (after.drop cap.length)
    else findIdsFuel kw fuel rest

def findIds (kw : List Char) (l : List Char) : List String :=
  findIdsFuel kw l.length l

/-- The literal part of the regex `def (\w+)`. -/
def defKw : List Char := ['d', 'e', 'f', ' ']

/-- The literal part of the regex `class (\w+)`. -/
def classKw : List Char := ['c', 'l', 'a', 's', 's', ' ']

/-- UTF-8 encoding of one code point (`str.encode()` per character). -/
def utf8Char (n : Nat) : List Nat :=
  if n < 128 then [n]
  else if n < 2048 then [192 + n / 64, 128 + n % 64]
  else if n < 65536 then [224 + n / 4096, 128 + (n / 64) % 64, 128 + n % 64]
  else [240 + n / 262144, 128 + (n / 4096) % 64, 128 + (n / 64) % 64, 128 + n % 64]

/-- UTF-8 bytes of a string (`file_path.encode()`). -/
def strBytes (s : String) : List Nat :=
  (s.data.map (fun c => utf8Char c.toNat)).flatten

/-- 32-bit left rotation (operands below `2 ^ 32`). -/
def rotl32 (x s : Nat) : Nat :=
  ((x <<< s) ||| (x >>> (32 - s))) % 2 ^ 32

/-- The MD5 round functions F, G, H, I selected by round index.
Bitwise complement within 32 bits is xor with `2 ^ 32 - 1`. -/
def md5F (i b c d : Nat) : Nat :=
  if i < 16 then (b &&& c) ||| ((b ^^^ (2 ^ 32 - 1)) &&& d)
  else if i < 32 then (d &&& b) ||| ((d ^^^ (2 ^ 32 - 1)) &&& c)
  else if i < 48 then b ^^^ c ^^^ d
  else c ^^^ (b ||| (d ^^^ (2 ^ 32 - 1)))

/-- The message-word index used in round `i`. -/
def md5G (i : Nat) : Nat :=
  if i < 16 then i
  else if i < 32 then (5 * i + 1) % 16
  else if i < 48 then (3 * i + 5) % 16
  else (7 * i) % 16

/-- The 64 MD5 additive constants `K[i]` (RFC 1321). -/
def md5K : List Nat :=
  [0xd76aa478, 0xe8c7b756, 0x242070db, 0xc1bdceee,
   0xf57c0faf, 0x4787c62a, 0xa8304613, 0xfd469501,
   0x698098d8, 0x8b44f7af, 0xffff5bb1, 0x895cd7be,
   0x6b901122, 0xfd987193, 0xa679438e, 0x49b40821,
   0xf61e2562, 0xc040b340, 0x265e5a51, 0xe9b6c7aa,
   0xd62f105d, 0x02441453, 0xd8a1e681, 0xe7d3fbc8,
   0x21e1cde6, 0xc33707d6, 0xf4d50d87, 0x455a14ed,
   0xa9e3e905, 0xfcefa3f8, 0x676f02d9, 0x8d2a4c8a,
   0xfffa3942, 0x8771f681, 0x6d9d6122, 0xfde5380c,
   0xa4beea44, 0x4bdecfa9, 0xf6bb4b60, 0xbebfbc70,
   0x289b7ec6, 0xeaa127fa, 0xd4ef3085, 0x04881d05,
   0xd9d4d039, 0xe6db99e5, 0x1fa27cf8, 0xc4ac5665,
   0xf4292244, 0x432aff97, 0xab9423a7, 0xfc93a039,
   0x655b59c3, 0x8f0ccc92, 0xffeff47d, 0x85845dd1,
   0x6fa87e4f, 0xfe2ce6e0, 0xa3014314, 0x4e0811a1,
   0xf7537e82, 0xbd3af235, 0x2ad7d2bb, 0xeb86d391]

/-- The 64 MD5 per-round shift amounts. -/
def md5S : List Nat :=
  [7, 12, 17, 22, 7, 12, 17, 22, 7, 12, 17, 22, 7, 12, 17, 22,
   5, 9, 14, 20, 5, 9, 14, 20, 5, 9, 14, 20, 5, 9, 14, 20,
   4, 11, 16, 23, 4, 11, 16, 23, 4, 11, 16, 23, 4, 11, 16, 23,
   6, 10, 15, 21, 6, 10, 15, 21, 6, 10, 15, 21, 6, 10, 15, 21]

/-- Little-endian 32-bit word `j` of a 64-byte block. -/
def leWord (bs : List Nat) (j : Nat) : Nat :=
  bs.getD (4 * j) 0 + 256 * bs.getD (4 * j + 1) 0 +
    65536 * bs.getD (4 * j + 2) 0 + 16777216 * bs.getD (4 * j + 3) 0

/-- One MD5 round on the state `(a, b, c, d)`. -/
def md5Round (m : Nat → Nat) (st : Nat × Nat × Nat × Nat) (i : Nat) :
    Nat × Nat × Nat × Nat :=
  let x := (st.1 + md5F i st.2.1 st.2.2.1 st.2.2.2 + md5K.getD i 0 + m (md5G i)) % 2 ^ 32
  (st.2.2.2, (st.2.1 + rotl32 x (md5S.getD i 0)) % 2 ^ 32, st.2.1, st.2.2.1)

/-- Process one 64-byte block: 64 rounds, then add into the running state. -/
def md5Block (st : Nat × Nat × Nat × Nat) (blk : List Nat) : Nat × Nat × Nat × Nat :=
  let r := (List.range 64).foldl (md5Round (leWord blk)) st
  ((st.1 + r.1) % 2 ^ 32, (st.2.1 + r.2.1) % 2 ^ 32,
   (st.2.2.1 + r.2.2.1) % 2 ^ 32, (st.2.2.2 + r.2.2.2) % 2 ^ 32)

/-- `n` little-endian bytes of `x`. -/
def leBytes : Nat → Nat → List Nat
  | 0, _ => []
  | n + 1, x => x % 256 :: leBytes n (x / 256)

/-- Split into consecutive 64-byte chunks; `fuel = l.length` suffices since
each step consumes at least one element. -/
def chunksAux : Nat → List Nat → List (List Nat)
  | 0, _ => []
  | _ + 1, [] => []
  | fuel + 1, c :: rest => (c :: rest).take 64 :: chunksAux fuel ((c :: rest).drop 64)

def chunks64 (l : List Nat) : List (List Nat) := chunksAux l.length l

/-- MD5 padding: a `0x80` byte, zeros to 56 mod 64, then the 64-bit
little-endian bit length. -/
def md5pad (msg : List Nat) : List Nat :=
  msg ++ [128] ++ List.replicate ((119 - msg.length % 64) % 64) 0 ++
    leBytes 8 ((msg.length * 8) % 2 ^ 64)

/-- The MD5 initial state words. -/
def md5IV : Nat × Nat × Nat × Nat := (0x67452301, 0xefcdab89, 0x98badcfe, 0x10325476)

/-- The MD5 digest of a byte list, as the natural number whose little-endian
32-bit words are the final state — an injective encoding of the 32-character
hex digest `hashlib.md5(...).hexdigest()`. -/
def md5 (msg : List Nat) : Nat :=
  let r := (chunks64 (md5pad msg)).foldl md5Block md5IV
  r.1 + 2 ^ 32 * r.2.1 + 2 ^ 64 * r.2.2.1 + 2 ^ 96 * r.2.2.2

/-- A parsed JSON value, the possible results of `json.load`. -/
inductive JVal where
  | str (s : String)
  | num (n : Int)
  | bool (b : Bool)
  | null
  | arr (items : List JVal)
  | obj (entries : List (String × JVal))

/-- One file under the watched root, in `os.walk` scan order.

`path` is the joined path string.  `bytes` is the outcome of
`open(path, 'rb').read()` — `none` models a read failure (the bare
`except` branch of `hash_file`).  `text` is the outcome of the text-mode
read used by the text, JSON and code handlers — `none` models a read or
decode failure.  `jsonOf` is the outcome of `json.load` on that text —
`none` models a read or parse failure. -/
structure FileEntry where
  path : String
  bytes : Option (List Nat)
  text : Option String
  jsonOf : Option JVal

/-- The watched directory tree: whether `os.path.exists(training_folder)`
holds, and the files `os.walk` yields, flattened in scan order. -/
structure FileSystem where
  rootExists : Bool
  files : List FileEntry

/-- The mutable state of `AutoScanAI`: `processed_files` (the SeenSet of
fingerprints), the `knowledge_base` fields (`vocabulary`, `topics`,
`structured_data`) and the `learned_patterns` fields
(`conversation_patterns` and the `code_patterns` sub-mapping).  A dict key
that the Python code has not created yet is modelled by the empty default
of the corresponding field. -/
structure AIState where
  processed_files : Finset Nat
  vocabulary : Finset String
  topics : Finset String
  structured_data : String → Option String
  conversation_patterns : List String
  code_functions : List String
  code_classes : List String

/-- The state right after `__init__` builds the empty containers. -/
def initState : AIState where
  processed_files := ∅
  vocabulary := ∅
  topics := ∅
  structured_data := fun _ => none
  conversation_patterns := []
  code_functions := []
  code_classes := []

/-- `hash_file`: MD5 of the file bytes; if reading fails, MD5 of the
UTF-8 encoded path string instead.  Total — the caller never sees an
exception. -/
def hash_file (f : FileEntry) : Nat :=
  match f.bytes with
  | some bs => md5 bs
  | none => md5 (strBytes f.path)

/-- `learn_vocabulary`: union the token set of the text into `vocabulary`. -/
def learn_vocabulary (st : AIState) (text : String) : AIState :=
  { st with vocabulary := st.vocabulary ∪ (tokenize text).toFinset }

/-- `learn_conversation_patterns`: append every stripped sentence fragment
longer than 10 characters, in order. -/
def learn_conversation_patterns (st : AIState) (text : String) : AIState :=
  { st with conversation_patterns := st.conversation_patterns ++
      ((sentences text).map stripStr).filter (fun s => decide (10 < s.length)) }

/-- The fixed topic taxonomy of `learn_topics`, in dict insertion order. -/
def topicsTable : List (String × List String) :=
  [("technology", ["python", "code", "program", "computer", "ai", "machine"]),
   ("business", ["company", "business", "market", "money", "profit"]),
   ("science", ["research", "study", "data", "analysis", "experiment"]),
   ("creative", ["art", "design", "create", "story", "character"])]

/-- `learn_topics`: add every topic one of whose keywords occurs as a
substring of the lowered text. -/
def learn_topics (st : AIState) (text : String) : AIState :=
  let tl := (lowerStr text).data
  let detected := (topicsTable.filter
      (fun p => p.2.any (fun kw => containsL kw.data tl))).map Prod.fst
  if detected = [] then st
  else { st with topics := st.topics ∪ detected.toFinset }

/-- The body of `process_text_file` after a successful read. -/
def learn_text (st : AIState) (content : String) : AIState :=
  learn_topics (learn_conversation_patterns (learn_vocabulary st content) content) content

/-- `process_text_file`: read the file as UTF-8 text and learn from it; any
failure is caught and the state is left unchanged. -/
def process_text_file (st : AIState) (f : FileEntry) : AIState :=
  match f.text with
  | none => st
  | some content => learn_text st content

/-- One iteration of the `learn_from_dict` loop: a string value longer than
5 characters is stored under its key (last write wins). -/
def learnEntry (st : AIState) (e : String × JVal) : AIState :=
  match e.2 with
  | JVal.str v =>
    if 5 < v.length then
      { st with structured_data := fun k => if k = e.1 then some v else st.structured_data k }
    else st
  | _ => st

/-- `learn_from_dict`: fold `learnEntry` over the mapping's entries in
insertion order. -/
def learn_from_dict (st : AIState) (d : List (String × JVal)) : AIState :=
  d.foldl learnEntry st

/-- `process_json_file`: parse the file; a top-level mapping is learned
directly, a top-level sequence has each mapping element learned; any other
top-level value, and any read or parse failure, leaves the state
unchanged. -/
def process_json_file (st : AIState) (f : FileEntry) : AIState :=
  match f.jsonOf with
  | none => st
  | some (JVal.obj d) => learn_from_dict st d
  | some (JVal.arr items) =>
    items.foldl (fun s it =>
      match it with
      | JVal.obj d => learn_from_dict s d
      | _ => s) st
  | some _ => st

/-- `process_code_file`: extract `def (\w+)` and `class (\w+)` matches and
overwrite the stored `code_patterns` lists; a read failure is caught and
leaves the state unchanged. -/
def process_code_file (st : AIState) (f : FileEntry) : AIState :=
  match f.text with
  | none => st
  | some code =>
    { st with code_functions := findIds defKw code.data,
              code_classes := findIds classKw code.data }

/-- `os.path.splitext(path)[1]` (POSIX): the extension starts at the last
dot of the basename, unless every character of the basename before that
dot is itself a dot. -/
def extOf (path : String) : String :=
  let base := (path.data.reverse.takeWhile (fun c => !(c == '/'))).reverse
  let afterRev := base.reverse.takeWhile (fun c => !(c == '.'))
  if afterRev.length = base.length then ""
  else
    let i := base.length - afterRev.length - 1
    if (base.take i).any (fun c => !(c == '.')) then (base.drop i).asString else ""

/-- The lowered extension the dispatcher keys on:
`os.path.splitext(file_path)[1].lower()`. -/
def fileExt (path : String) : String := lowerStr (extOf path)

/-- `process_file`: the extension-keyed `processors` table, with the text
handler as the `.get` default. -/
def process_file (st : AIState) (f : FileEntry) : AIState :=
  let ext := fileExt f.path
  if ext = ".txt" then process_text_file st f
  else if ext = ".json" then process_json_file st f
  else if ext = ".md" then process_text_file st f
  else if ext = ".py" then process_code_file st f
  else if ext = ".csv" then process_text_file st f
  else process_text_file st f

/-- The body of the scan loop for one file: hash it, and if the fingerprint
is unseen, dispatch the file, add the fingerprint, and count it. -/
def scanStep (acc : AIState × Nat) (f : FileEntry) : AIState × Nat :=
  let h := hash_file f
  if h ∈ acc.1.processed_files then acc
  else
    let st := process_file acc.1 f
    ({ st with processed_files := insert h st.processed_files }, acc.2 + 1)

/-- `scan_training_data`: if the watched root is missing, report 0 and
leave the state untouched; otherwise fold the scan body over the files in
scan order and return the new-file count with the final state.  (The
count-triggered `analyze_learned_knowledge` call only prints.) -/
def scan_training_data (fs : FileSystem) (st : AIState) : Nat × AIState :=
  if fs.rootExists then
    let r := fs.files.foldl scanStep (st, 0)
    (r.2, r.1)
  else (0, st)

theorem foldl_processed {α : Type} (g : AIState → α → AIState)
    (hg : ∀ s a, (g s a).processed_files = s.processed_files) :
    ∀ (l : List α) (s : AIState), (l.foldl g s).processed_files = s.processed_files := by
  intro l
  induction l with
  | nil => intro s; rfl
  | cons a t ih => intro s; rw [List.foldl_cons, ih, hg]

theorem learnEntry_processed (s : AIState) (e : String × JVal) :
    (learnEntry s e).processed_files = s.processed_files := by
  unfold learnEntry
  rcases e with ⟨k, v⟩
  cases v <;> dsimp only
  split <;> rfl

theorem learn_from_dict_processed (s : AIState) (d : List (String × JVal)) :
    (learn_from_dict s d).processed_files = s.processed_files :=
  foldl_processed learnEntry learnEntry_processed d s

theorem learn_text_processed (s : AIState) (content : String) :
    (learn_text s content).processed_files = s.processed_files := by
  unfold learn_text learn_topics learn_conversation_patterns learn_vocabulary
  dsimp only
  split <;> rfl

theorem process_text_file_processed (s : AIState) (f : FileEntry) :
    (process_text_file s f).processed_files = s.processed_files := by
  unfold process_text_file
  cases f.text with
  | none => rfl
  | some content => exact learn_text_processed s content

theorem process_json_file_processed (s : AIState) (f : FileEntry) :
    (process_json_file s f).processed_files = s.processed_files := by
  unfold process_json_file
  cases f.jsonOf with
  | none => rfl
  | some v =>
    cases v with
    | obj d => exact learn_from_dict_processed s d
    | arr items =>
      refine foldl_processed _ (fun s' it => ?_) items s
      cases it <;> first
        | rfl
        | exact learn_from_dict_processed s' _
    | str _ => rfl
    | num _ => rfl
    | bool _ => rfl
    | null => rfl

theorem process_code_file_processed (s : AIState) (f : FileEntry) :
    (process_code_file s f).processed_files = s.processed_files := by
  unfold process_code_file
  cases f.text <;> rfl

theorem process_file_processed (s : AIState) (f : FileEntry) :
    (process_file s f).processed_files = s.processed_files := by
  unfold process_file
  dsimp only
  split_ifs <;> first
    | exact process_text_file_processed s f
    | exact process_json_file_processed s f
    | exact process_code_file_processed s f

theorem scanStep_skip (acc : AIState × Nat) (f : FileEntry)
    (h : hash_file f ∈ acc.1.processed_files) : scanStep acc f = acc := by
  simp [scanStep, h]

theorem scanStep_mem (acc : AIState × Nat) (f : FileEntry) :
    hash_file f ∈ (scanStep acc f).1.processed_files := by
  unfold scanStep
  dsimp only
  split
  · assumption
  · exact Finset.mem_insert_self _ _

theorem scanStep_mono (acc : AIState × Nat) (f : FileEntry) (x : Nat)
    (hx : x ∈ acc.1.processed_files) : x ∈ (scanStep acc f).1.processed_files := by
  unfold scanStep
  dsimp only
  split
  · exact hx
  · rw [Finset.mem_insert, process_file_processed]
    exact Or.inr hx

theorem scanFold_mono (l : List FileEntry) (acc : AIState × Nat) (x : Nat)
    (hx : x ∈ acc.1.processed_files) :
    x ∈ (l.foldl scanStep acc).1.processed_files := by
  induction l generalizing acc with
  | nil => exact hx
  | cons f t ih => exact ih _ (scanStep_mono acc f x hx)

theorem scanFold_covers (l : List FileEntry) (acc : AIState × Nat) (f : FileEntry)
    (hf : f ∈ l) : hash_file f ∈ (l.foldl scanStep acc).1.processed_files := by
  induction l generalizing acc with
  | nil => cases hf
  | cons g t ih =>
    rcases List.mem_cons.mp hf with h | h
    · subst h
      exact scanFold_mono t _ _ (scanStep_mem acc f)
    · exact ih _ h

theorem scanFold_id (l : List FileEntry) (acc : AIState × Nat)
    (h : ∀ f ∈ l, hash_file f ∈ acc.1.processed_files) :
    l.foldl scanStep acc = acc := by
  induction l with
  | nil => rfl
  | cons f t ih =>
    rw [List.foldl_cons, scanStep_skip acc f (h f (by simp))]
    exact ih (fun g hg => h g (by simp [hg]))

/-- Claim C1: content-based deduplication.  Scanning a file list that
contains a later file `g` with the same byte content as an earlier file `f`
gives exactly the same count and state as scanning the list without `g`:
the duplicate's fingerprint is already in the SeenSet, so it is neither
dispatched to a handler nor counted, and the same content at two paths is
learned only once. -/
theorem scan_dedup_identical_content (st : AIState)
    (pre mid post : List FileEntry) (f g : FileEntry) (bs : List Nat)
    (hf : f.bytes = some bs) (hg : g.bytes = some bs) :
    scan_training_data ⟨true, pre ++ f :: mid ++ g :: post⟩ st =
      scan_training_data ⟨true, pre ++ f :: mid ++ post⟩ st := by
  have hsame : hash_file g = hash_file f := by
    unfold hash_file
    rw [hf, hg]
  have key : ((pre ++ f :: mid) ++ g :: post).foldl scanStep (st, 0)
      = ((pre ++ f :: mid) ++ post).foldl scanStep (st, 0) := by
    simp only [List.foldl_append, List.foldl_cons]
    congr 1
    refine scanStep_skip _ g ?_
    rw [hsame]
    have hc := scanFold_covers (pre ++ f :: mid) (st, 0) f (by simp)
    simpa only [List.foldl_append, List.foldl_cons] using hc
  unfold scan_training_data
  dsimp only
  rw [key]

/-- Witness for C1 at a concrete pair of files with identical bytes. -/
theorem scan_dedup_identical_content_witness :
    scan_training_data ⟨true, [⟨"dir/a.txt", some [104, 105], some "hi", none⟩,
        ⟨"dir/b.txt", some [104, 105], some "hi", none⟩]⟩ initState =
      scan_training_data ⟨true, [⟨"dir/a.txt", some [104, 105], some "hi", none⟩]⟩
        initState :=
  scan_dedup_identical_content initState [] [] []
    ⟨"dir/a.txt", some [104, 105], some "hi", none⟩
    ⟨"dir/b.txt", some [104, 105], some "hi", none⟩ [104, 105] rfl rfl

/-- Claim C2: rescan idempotence.  Running the scan loop a second time on
the state produced by a first run, with the same filesystem, returns a
new-file count of 0 and leaves the state unchanged — every fingerprint of
the second run is already in the SeenSet. -/
theorem scan_rescan_zero (fs : FileSystem) (st : AIState) :
    scan_training_data fs (scan_training_data fs st).2 =
      (0, (scan_training_data fs st).2) := by
  by_cases h : fs.rootExists = true
  · unfold scan_training_data
    simp only [if_pos h]
    rw [scanFold_id fs.files ((fs.files.foldl scanStep (st, 0)).1, 0)
      (fun f hf => scanFold_covers fs.files (st, 0) f hf)]
  · unfold scan_training_data
    simp only [if_neg h]

/-- Claim C3: a missing watched root yields a scan result of 0 new files
without an error and without touching the SeenSet or the knowledge base:
the returned state is the input state. -/
theorem scan_missing_root (fs : FileSystem) (st : AIState)
    (h : fs.rootExists = false) : scan_training_data fs st = (0, st) := by
  unfold scan_training_data
  rw [h]
  rfl

/-- Witness for C3 at a concrete filesystem whose root is missing. -/
theorem scan_missing_root_witness :
    scan_training_data ⟨false, [⟨"a.txt", some [1], some "x", none⟩]⟩ initState =
      (0, initState) :=
  scan_missing_root _ initState rfl

theorem md5Block_bound (st : Nat × Nat × Nat × Nat) (blk : List Nat) :
    (md5Block st blk).1 < 2 ^ 32 ∧ (md5Block st blk).2.1 < 2 ^ 32 ∧
      (md5Block st blk).2.2.1 < 2 ^ 32 ∧ (md5Block st blk).2.2.2 < 2 ^ 32 := by
  unfold md5Block
  refine ⟨?_, ?_, ?_, ?_⟩ <;> exact Nat.mod_lt _ (by norm_num)

theorem md5Fold_bound (l : List (List Nat)) (st : Nat × Nat × Nat × Nat)
    (h : st.1 < 2 ^ 32 ∧ st.2.1 < 2 ^ 32 ∧ st.2.2.1 < 2 ^ 32 ∧ st.2.2.2 < 2 ^ 32) :
    (l.foldl md5Block st).1 < 2 ^ 32 ∧ (l.foldl md5Block st).2.1 < 2 ^ 32 ∧
      (l.foldl md5Block st).2.2.1 < 2 ^ 32 ∧ (l.foldl md5Block st).2.2.2 < 2 ^ 32 := by
  induction l generalizing st with
  | nil => exact h
  | cons b t ih => exact ih _ (md5Block_bound st b)

/-- Every MD5 digest fits in the fixed 128-bit fingerprint space. -/
theorem md5_lt (msg : List Nat) : md5 msg < 2 ^ 128 := by
  unfold md5
  obtain ⟨h1, h2, h3, h4⟩ :=
    md5Fold_bound (chunks64 (md5pad msg)) md5IV (by norm_num [md5IV])
  dsimp only
  have e32 : (2 : Nat) ^ 32 = 4294967296 := by norm_num
  have e64 : (2 : Nat) ^ 64 = 18446744073709551616 := by norm_num
  have e96 : (2 : Nat) ^ 96 = 79228162514264337593543950336 := by norm_num
  have e128 : (2 : Nat) ^ 128 = 340282366920938463463374607431768211456 := by norm_num
  rw [e32] at h1 h2 h3 h4
  rw [e32, e64, e96, e128]
  omega

/-- Claim C4: Change Detector totality.  `hash_file` is a total function:
every file gets a fingerprint in the fixed 128-bit space; when the byte
read fails the fingerprint is the MD5 of the path string itself, and when
it succeeds it is the MD5 of the content — no branch fails the caller. -/
theorem hash_file_total (f : FileEntry) :
    hash_file f < 2 ^ 128 ∧
      (f.bytes = none → hash_file f = md5 (strBytes f.path)) ∧
      (∀ bs, f.bytes = some bs → hash_file f = md5 bs) := by
  unfold hash_file
  cases hb : f.bytes with
  | none =>
    refine ⟨md5_lt (strBytes f.path), fun _ => rfl, fun bs h => Option.noConfusion h⟩
  | some bs =>
    refine ⟨md5_lt bs, fun h => Option.noConfusion h, fun bs' h => ?_⟩
    obtain rfl := Option.some.inj h
    rfl

/-- Witness for C4 at a concrete unreadable file. -/
theorem hash_file_total_witness :
    hash_file ⟨"training_data/gone.bin", none, none, none⟩ < 2 ^ 128 ∧
      hash_file ⟨"training_data/gone.bin", none, none, none⟩ =
        md5 (strBytes "training_data/gone.bin") :=
  ⟨(hash_file_total ⟨"training_data/gone.bin", none, none, none⟩).1,
   (hash_file_total ⟨"training_data/gone.bin", none, none, none⟩).2.1 rfl⟩

/-- Claim C5: handler failure is suppressed and the file is still consumed.
When the handler's read or parse fails (`text` and `jsonOf` are `none`,
covering every dispatch route), `process_file` leaves the state exactly as
it was (a no-op for that file); the scan step still adds the fingerprint to
the SeenSet and, once the fingerprint is present, every later step for that
file is a no-op — the file is never retried. -/
theorem handler_failure_noop (st : AIState) (f : FileEntry) (n : Nat)
    (ht : f.text = none) (hj : f.jsonOf = none) :
    process_file st f = st ∧
      (hash_file f ∉ st.processed_files →
        scanStep (st, n) f =
          ({ st with processed_files := insert (hash_file f) st.processed_files },
            n + 1)) ∧
      (hash_file f ∈ st.processed_files → scanStep (st, n) f = (st, n)) := by
  have hnoop : process_file st f = st := by
    unfold process_file
    dsimp only
    split_ifs <;>
      simp [process_text_file, process_json_file, process_code_file, ht, hj]
  refine ⟨hnoop, fun hmem => ?_, fun hmem => scanStep_skip (st, n) f hmem⟩
  unfold scanStep
  dsimp only
  rw [if_neg hmem, hnoop]

/-- Witness for C5 at a concrete file whose text and JSON reads fail. -/
theorem handler_failure_noop_witness :
    process_file initState ⟨"training_data/x.bin", some [0, 255], none, none⟩ =
        initState ∧
      (scanStep (initState, 0) ⟨"training_data/x.bin", some [0, 255], none, none⟩).1.processed_files =
        {hash_file ⟨"training_data/x.bin", some [0, 255], none, none⟩} ∧
      (scanStep (initState, 0) ⟨"training_data/x.bin", some [0, 255], none, none⟩).2 = 1 := by
  obtain ⟨h1, h2, _⟩ :=
    handler_failure_noop initState ⟨"training_data/x.bin", some [0, 255], none, none⟩
      0 rfl rfl
  have h2' := h2 (by simp [initState])
  refine ⟨h1, ?_, ?_⟩
  · rw [h2']
    simp [initState]
  · rw [h2']

/-- Claim C6: dispatcher routing.  The handler is chosen from the lowered
extension: `.json` goes to the structured handler, `.py` to the code
handler, and everything else — `.txt`, `.md`, `.csv`, any unknown
extension, or none — to the text handler, the `.get` default. -/
theorem dispatcher_routing (st : AIState) (f : FileEntry) :
    process_file st f =
      (if fileExt f.path = ".json" then process_json_file st f
       else if fileExt f.path = ".py" then process_code_file st f
       else process_text_file st f) := by
  unfold process_file
  dsimp only
  split_ifs <;> simp_all

theorem learn_topics_vocab (st : AIState) (t : String) :
    (learn_topics st t).vocabulary = st.vocabulary := by
  unfold learn_topics
  dsimp only
  split <;> rfl

theorem learn_topics_patterns (st : AIState) (t : String) :
    (learn_topics st t).conversation_patterns = st.conversation_patterns := by
  unfold learn_topics
  dsimp only
  split <;> rfl

/-- Claim C7: the text handler on the concrete content
"Email: test@example.com. Phone: +1-555-0123." adds exactly the tokens
email, phone, test, example, com to the vocabulary, and appends exactly the
two stripped fragments, the first of which is longer than 10 characters. -/
theorem text_handler_email_example (st : AIState) :
    (learn_text st "Email: test@example.com. Phone: +1-555-0123.").vocabulary =
        st.vocabulary ∪ {"email", "phone", "test", "example", "com"} ∧
      (learn_text st "Email: test@example.com. Phone: +1-555-0123.").conversation_patterns =
        st.conversation_patterns ++ ["Email: test@example", "Phone: +1-555-0123"] ∧
      10 < ("Email: test@example" : String).length := by
  refine ⟨?_, ?_, by decide⟩
  · unfold learn_text
    rw [learn_topics_vocab]
    have hv : (learn_conversation_patterns
          (learn_vocabulary st "Email: test@example.com. Phone: +1-555-0123.")
          "Email: test@example.com. Phone: +1-555-0123.").vocabulary =
        st.vocabulary ∪
          (tokenize "Email: test@example.com. Phone: +1-555-0123.").toFinset := rfl
    rw [hv, show tokenize "Email: test@example.com. Phone: +1-555-0123." =
        ["email", "test", "example", "com", "phone"] from by decide]
    ext x
    simp
    tauto
  · unfold learn_text
    rw [learn_topics_patterns]
    have hp : (learn_conversation_patterns
          (learn_vocabulary st "Email: test@example.com. Phone: +1-555-0123.")
          "Email: test@example.com. Phone: +1-555-0123.").conversation_patterns =
        st.conversation_patterns ++
          ((sentences "Email: test@example.com. Phone: +1-555-0123.").map stripStr).filter
            (fun s => decide (10 < s.length)) := rfl
    rw [hp, show ((sentences "Email: test@example.com. Phone: +1-555-0123.").map
          stripStr).filter (fun s => decide (10 < s.length)) =
        ["Email: test@example", "Phone: +1-555-0123"] from by decide]

theorem learnEntry_sd_ne (st : AIState) (e : String × JVal) (k : String)
    (hne : e.1 ≠ k) : (learnEntry st e).structured_data k = st.structured_data k := by
  unfold learnEntry
  rcases e with ⟨k', v⟩
  cases v <;> dsimp only
  split
  · dsimp only
    rw [if_neg (fun hh => hne (by simp_all))]
  · rfl

theorem learn_from_dict_absent (st : AIState) (d : List (String × JVal)) (k : String)
    (h : ∀ e ∈ d, e.1 ≠ k) :
    (learn_from_dict st d).structured_data k = st.structured_data k := by
  induction d generalizing st with
  | nil => rfl
  | cons e rest ih =>
    show (learn_from_dict (learnEntry st e) rest).structured_data k = _
    rw [ih (learnEntry st e) (fun e' he' => h e' (by simp [he']))]
    exact learnEntry_sd_ne st e k (h e (by simp))

/-- Claim C8: structured-handler length threshold.  For a top-level mapping
(unique keys, as a parsed JSON object has), the stored value at key `k` is
the mapping's string value at `k` exactly when that value is longer than 5
characters; otherwise, and for keys the mapping does not bind to such a
string, `structured_data` is unchanged at `k`. -/
theorem structured_threshold (st : AIState) (d : List (String × JVal)) (k : String)
    (hnd : (d.map Prod.fst).Nodup) :
    (learn_from_dict st d).structured_data k =
      match d.find? (fun e => e.1 == k) with
      | some (_, JVal.str v) => if 5 < v.length then some v else st.structured_data k
      | _ => st.structured_data k := by
  induction d generalizing st with
  | nil => rfl
  | cons e rest ih =>
    have hnd' : (rest.map Prod.fst).Nodup := (List.nodup_cons.mp hnd).2
    by_cases hk : e.1 = k
    · have hrest : ∀ e' ∈ rest, e'.1 ≠ k := by
        intro e' he' heq
        exact (List.nodup_cons.mp hnd).1 (hk ▸ heq ▸ List.mem_map_of_mem Prod.fst he')
      show (learn_from_dict (learnEntry st e) rest).structured_data k = _
      rw [learn_from_dict_absent (learnEntry st e) rest k hrest,
        List.find?_cons_of_pos _ (by simp [hk])]
      rcases e with ⟨k', v⟩
      subst hk
      cases v <;> dsimp only [learnEntry]
      split
      · simp
      · rfl
    · show (learn_from_dict (learnEntry st e) rest).structured_data k = _
      rw [ih (learnEntry st e) hnd',
        List.find?_cons_of_neg _ (by simp [hk])]
      have hee : (learnEntry st e).structured_data k = st.structured_data k :=
        learnEntry_sd_ne st e k hk
      cases hfind : rest.find? (fun e' => e'.1 == k) with
      | none => exact hee
      | some e' =>
        rcases e' with ⟨k2, v2⟩
        cases v2 <;> dsimp only
        · split
          · rfl
          · exact hee
        all_goals exact hee

/-- Witness for C8 at the two concrete records of the claim. -/
theorem structured_threshold_witness :
    (learn_from_dict initState [("a", JVal.str "short")]).structured_data "a" = none ∧
      (learn_from_dict initState
          [("a", JVal.str "this is long enough")]).structured_data "a" =
        some "this is long enough" := by
  constructor
  · exact (structured_threshold initState [("a", JVal.str "short")] "a"
      (by simp)).trans rfl
  · exact (structured_threshold initState [("a", JVal.str "this is long enough")] "a"
      (by simp)).trans rfl

/-- Claim C9: code-handler overwrite semantics.  Processing a second code
file replaces the stored identifier lists: the final `functions` and
`classes` lists are computed from the second file's text alone, with no
contribution from the first file or the prior state. -/
theorem code_handler_overwrite (st : AIState) (f g : FileEntry) (tf tg : String)
    (hf : f.text = some tf) (hg : g.text = some tg) :
    (process_code_file (process_code_file st f) g).code_functions =
        findIds defKw tg.data ∧
      (process_code_file (process_code_file st f) g).code_classes =
        findIds classKw tg.data := by
  unfold process_code_file
  rw [hf, hg]
  exact ⟨rfl, rfl⟩

/-- Witness for C9: `foo` then `bar` leaves `functions == ["bar"]`. -/
theorem code_handler_overwrite_witness :
    (process_code_file (process_code_file initState
        ⟨"training_data/one.py", some [1], some "def foo():\n    return 1\n", none⟩)
        ⟨"training_data/two.py", some [2], some "def bar():\n    return 2\n",
          none⟩).code_functions = ["bar"] := by
  have h := code_handler_overwrite initState
    ⟨"training_data/one.py", some [1], some "def foo():\n    return 1\n", none⟩
    ⟨"training_data/two.py", some [2], some "def bar():\n    return 2\n", none⟩
    "def foo():\n    return 1\n" "def bar():\n    return 2\n" rfl rfl
  exact h.1.trans (by decide)

/-- Claim C10: topic keyword matching is raw substring search.  Whenever a
taxonomy keyword occurs anywhere as a substring of the lowered text — also
inside a longer word — the corresponding topic is added to `topics`. -/
theorem topics_substring_match (st : AIState) (text topic kw : String)
    (kws : List String) (ht : (topic, kws) ∈ topicsTable) (hk : kw ∈ kws)
    (hc : containsL kw.data (lowerStr text).data = true) :
    topic ∈ (learn_topics st text).topics := by
  unfold learn_topics
  dsimp only
  have hmem : topic ∈ (topicsTable.filter
      (fun p => p.2.any (fun kw' => containsL kw'.data (lowerStr text).data))).map
        Prod.fst := by
    refine List.mem_map.mpr ⟨(topic, kws), List.mem_filter.mpr ⟨ht, ?_⟩, rfl⟩
    exact List.any_eq_true.mpr ⟨kw, hk, hc⟩
  rw [if_neg (List.ne_nil_of_mem hmem)]
  exact Finset.mem_union_right _ (List.mem_toFinset.mpr hmem)

/-- Witness for C10: "ai" occurs only inside "Email", yet "technology" is
detected. -/
theorem topics_substring_match_witness :
    "technology" ∈ (learn_topics initState "Please send that Email today").topics :=
  topics_substring_match initState "Please send that Email today" "technology" "ai"
    ["python", "code", "program", "computer", "ai", "machine"]
    (by simp [topicsTable]) (by simp) (by decide)

example : fileExt "dir/a.TXT" = ".txt" := by decide
example : fileExt "dir/.hidden" = "" := by decide
example : fileExt "dir/archive.tar.gz" = ".gz" := by decide
example : fileExt "dir/noext" = "" := by decide
set_option maxRecDepth 100000 in
example :
    (scan_training_data ⟨true, [⟨"a.txt", some [104, 105], some "hi", none⟩,
        ⟨"b.txt", some [104, 105], some "hi", none⟩]⟩ initState).1 = 1 := by decide
example : lowerStr "AbC: 3!" = "abc: 3!" := by decide
example : stripStr "  ab c  " = "ab c" := by decide
example : tokenize "Email: test@example.com. Phone: +1-555-0123." =
    ["email", "test", "example", "com", "phone"] := by decide
example : sentences "Email: test@example.com. Phone: +1-555-0123." =
    ["Email: test@example", "com", " Phone: +1-555-0123", ""] := by decide
example : findIds defKw "def foo(): pass".data = ["foo"] := by decide
example : findIds defKw "abcdef ghi def x1_y(z)".data = ["ghi", "x1_y"] := by decide
example : containsL "ai".data (lowerStr "send Email now").data = true := by decide

end AutoScan
